import Mathlib

/-!
Shallow embedding of the fund-data extraction pipeline in `DataExtractor.py`
(fuzzy column matcher, PDF line-table parser, spreadsheet normalizer,
record aggregator), together with theorems settling the specification
claims about it.

Numeric values are modelled as exact rationals (`ℚ`): the Python code uses
IEEE doubles, but no claim in scope depends on rounding, and all inputs in
scope are short decimal literals.  Because the library's `Rat.add`/`Rat.mul`
are irreducible (so the kernel cannot evaluate them), the embedding computes
with `Rat.divInt`/`mkRat`-based operations `qAdd`, `qMul`, `qDiv`, which are
proved equal to the standard ones below.
-/

set_option maxRecDepth 40000

namespace DataExtractor

/-- Computable rational addition, proved equal to `a + b` in `qAdd_eq`. -/
def qAdd (a b : ℚ) : ℚ := Rat.divInt (a.num * b.den + b.num * a.den) (a.den * b.den)

/-- Computable rational multiplication, proved equal to `a * b` in `qMul_eq`. -/
def qMul (a b : ℚ) : ℚ := Rat.divInt (a.num * b.num) (a.den * b.den)

/-- Computable rational division, proved equal to `a / b` in `qDiv_eq`. -/
def qDiv (a b : ℚ) : ℚ := Rat.divInt (a.num * b.den) (a.den * b.num)

theorem qAdd_eq (a b : ℚ) : qAdd a b = a + b := by
  rw [qAdd, Rat.divInt_eq_div]
  have ha : ((a.den : ℚ)) ≠ 0 := by exact_mod_cast a.den_nz
  have hb : ((b.den : ℚ)) ≠ 0 := by exact_mod_cast b.den_nz
  conv_rhs => rw [← Rat.num_div_den a, ← Rat.num_div_den b]
  rw [div_add_div _ _ ha hb]
  push_cast
  ring_nf

theorem qMul_eq (a b : ℚ) : qMul a b = a * b := by
  rw [qMul, Rat.divInt_eq_div]
  conv_rhs => rw [← Rat.num_div_den a, ← Rat.num_div_den b]
  rw [div_mul_div_comm]
  push_cast
  ring_nf

theorem qDiv_eq (a b : ℚ) : qDiv a b = a / b := by
  by_cases hb0 : b = 0
  · subst hb0
    rw [qDiv]
    norm_num
  · rw [qDiv, Rat.divInt_eq_div]
    have ha : ((a.den : ℚ)) ≠ 0 := by exact_mod_cast a.den_nz
    have hbn : ((b.num : ℚ)) ≠ 0 := by exact_mod_cast Rat.num_ne_zero.mpr hb0
    have hbd : ((b.den : ℚ)) ≠ 0 := by exact_mod_cast b.den_nz
    conv_rhs => rw [← Rat.num_div_den a, ← Rat.num_div_den b]
    push_cast
    field_simp

/-- Sum of a list of rationals with the computable addition. -/
def qSum : List ℚ → ℚ
  | [] => 0
  | q :: qs => qAdd q (qSum qs)

theorem qSum_eq (l : List ℚ) : qSum l = l.sum := by
  induction l with
  | nil => rfl
  | cons q qs ih => rw [qSum, qAdd_eq, ih, List.sum_cons]

/-- Boolean test that the first list is an initial segment of the second. -/
def leadsIn : List Char → List Char → Bool
  | [], _ => true
  | _ :: _, [] => false
  | a :: as, b :: bs => a == b && leadsIn as bs

/-- Boolean substring test, modelling Python's `pat in s` on strings. -/
def occursIn (pat : List Char) : List Char → Bool
  | [] => pat.isEmpty
  | c :: rest => leadsIn pat (c :: rest) || occursIn pat rest

/-- Substring test on `String`, modelling Python's `pat in s`. -/
def strIn (pat s : String) : Bool := occursIn pat.data s.data

/-- Split a character list at every occurrence of `c`, modelling Python's
`str.split(sep)` for a one-character separator (the only separators the
source uses are `"|"` and `"\n"`). -/
def splitOnChar (c : Char) : List Char → List (List Char)
  | [] => [[]]
  | x :: xs =>
    let r := splitOnChar c xs
    if x = c then [] :: r
    else
      match r with
      | [] => [[x]]
      | h :: t => (x :: h) :: t

/-- Drop leading whitespace. -/
def trimLead (cs : List Char) : List Char := cs.dropWhile Char.isWhitespace

/-- Model of Python `str.strip()`: drop whitespace from both ends. -/
def pyStrip (cs : List Char) : List Char := (trimLead ((trimLead cs).reverse)).reverse

/-- Python `str.strip()` packaged on `String`. -/
def stripS (s : String) : String := String.mk (pyStrip s.data)

/-- ASCII lower-casing of one character (all strings in scope are ASCII). -/
def lowChar (c : Char) : Char :=
  if 65 ≤ c.toNat ∧ c.toNat ≤ 90 then Char.ofNat (c.toNat + 32) else c

/-- Model of Python `str.lower()` for ASCII strings. -/
def lowerStr (s : String) : String := String.mk (s.data.map lowChar)

/-- Decimal digit test. -/
def isDig (c : Char) : Bool := '0' ≤ c && c ≤ '9'

/-- Value of a list of decimal digits. -/
def digitsToNat (cs : List Char) : ℕ := cs.foldl (fun a c => 10 * a + (c.toNat - 48)) 0

/-- Exponent digits of a float literal: nonempty, all decimal digits. -/
def expDigits (ds : List Char) : Option ℤ :=
  if ds.isEmpty then none
  else if ds.all isDig then some ((digitsToNat ds : ℕ) : ℤ) else none

/-- Unsigned part of Python `float(s)`: `digits [ "." digits ] [ ("e"|"E") [sign] digits ]`
with at least one mantissa digit. -/
def pyFloatMag (cs : List Char) : Option ℚ :=
  let mantPart := cs.takeWhile (fun c => !(c == 'e' || c == 'E'))
  let expPart := cs.dropWhile (fun c => !(c == 'e' || c == 'E'))
  let expVal? : Option ℤ :=
    match expPart with
    | [] => some 0
    | _ :: rest =>
      match rest with
      | '+' :: ds => expDigits ds
      | '-' :: ds => (expDigits ds).map Neg.neg
      | ds => expDigits ds
  let ip := mantPart.takeWhile (fun c => !(c == '.'))
  let dotPart := mantPart.dropWhile (fun c => !(c == '.'))
  let fp := match dotPart with
    | [] => ([] : List Char)
    | _ :: t => t
  if ip.all isDig && fp.all isDig && !(ip.isEmpty && fp.isEmpty) then
    expVal?.map (fun e =>
      let m : ℕ := digitsToNat (ip ++ fp)
      let d : ℕ := 10 ^ fp.length
      if 0 ≤ e then Rat.divInt ((m * 10 ^ e.toNat : ℕ) : ℤ) d
      else Rat.divInt (m : ℤ) (d * 10 ^ (-e).toNat))
  else none

/-- Model of Python `float(s)` restricted to finite decimal notation: optional
surrounding whitespace, optional sign, decimal mantissa, optional decimal
exponent.  Python additionally accepts `inf`/`nan` spellings and underscore
digit separators, none of which occur in scope (and which have no rational
denotation in the `inf`/`nan` case). -/
def pyFloat (s : String) : Option ℚ :=
  match pyStrip s.data with
  | '+' :: rest => pyFloatMag rest
  | '-' :: rest => (pyFloatMag rest).map (fun q => Rat.divInt (-q.num) q.den)
  | cs => pyFloatMag cs

/-- Length of the longest common initial run of two character lists. -/
def commonLead : List Char → List Char → ℕ
  | a :: as, b :: bs => if a = b then commonLead as bs + 1 else 0
  | _, _ => 0

/-- Model of difflib `SequenceMatcher.find_longest_match` over the whole
sequences (no junk: the strings in scope are far below the autojunk length
200 and no junk predicate is supplied): the longest common contiguous
block, preferring the earliest start in `a`, then the earliest in `b`.
Returns `(i, j, size)`. -/
def bestBlock (a b : List Char) : ℕ × ℕ × ℕ :=
  (List.range (a.length + 1)).foldl (fun best i =>
    (List.range (b.length + 1)).foldl (fun best j =>
      let k := commonLead (a.drop i) (b.drop j)
      if best.2.2 < k then (i, j, k) else best) best) (0, 0, 0)

/-- Total size of the blocks found by difflib's `get_matching_blocks`
recursion; `fuel` bounds the recursion depth (`a.length + b.length`
suffices, since each recursive call strictly shortens the first list when
the block is nonempty). -/
def blocksTotal : ℕ → List Char → List Char → ℕ
  | 0, _, _ => 0
  | fuel + 1, a, b =>
    let t := bestBlock a b
    if t.2.2 = 0 then 0
    else
      blocksTotal fuel (a.take t.1) (b.take t.2.1) + t.2.2 +
        blocksTotal fuel (a.drop (t.1 + t.2.2)) (b.drop (t.2.1 + t.2.2))

/-- difflib `SequenceMatcher.ratio()`: `2*M/T` where `M` is the total
matching-block size and `T` the combined length, and `1` when both
sequences are empty. -/
def simScore (a b : List Char) : ℚ :=
  if a.length + b.length = 0 then 1
  else Rat.divInt ((2 * blocksTotal (a.length + b.length) a b : ℕ) : ℤ) (a.length + b.length)

/-- The fixed similarity cutoff `0.6` of the source's `get_close_matches` call. -/
def cutoff : ℚ := mkRat 3 5

/-- Model of difflib `get_close_matches(word, possibilities, n=1, cutoff=0.6)`.
A possibility `x` is accepted when `ratio(x, word) ≥ cutoff`; the library's
intermediate `real_quick_ratio`/`quick_ratio` filters are upper bounds of
`ratio` and so never change which possibilities pass.  `heapq.nlargest(1, ·)`
then picks the maximal `(score, string)` pair; `gcmStep` is one fold step of
that selection. -/
def gcmStep (word : String) (best : Option (ℚ × String)) (x : String) : Option (ℚ × String) :=
  let r := simScore x.data word.data
  if r < cutoff then best
  else
    match best with
    | none => some (r, x)
    | some (br, bx) => if br < r ∨ (br = r ∧ bx < x) then some (r, x) else some (br, bx)

/-- The `n = 1` call folds `gcmStep` over the possibilities and keeps the
winning string. -/
def get_close_matches1 (word : String) (possibilities : List String) : Option String :=
  (possibilities.foldl (gcmStep word) none).map Prod.snd

/-- `match_column` from the source: try the aliases in order, lower-casing
each, and return the first accepted fuzzy match; `none` when no alias has
one. -/
def match_column (possible_names : List String) (available_columns : List String) :
    Option String :=
  match possible_names with
  | [] => none
  | name :: rest =>
    match get_close_matches1 (lowerStr name) available_columns with
    | some m => some m
    | none => match_column rest available_columns

/-- A raw tabular value: a number or a string.  Blank spreadsheet cells
(NaN after reading) are outside the model; no claim in scope exercises
them. -/
inductive Cell where
  | num (q : ℚ)
  | str (s : String)
deriving DecidableEq, Repr

/-- Canonical fund record, the row shape of the combined frame.  `ret`
models the `return` column (`return` is reserved in Lean).  `fund_name`
and `strategy` are taken raw from the source cells; the PDF path always
stores strings there, the spreadsheet path whatever the cell held.  `aum`
is the raw aum cell, absent when no aum column resolved. -/
structure FundRecord where
  fund_name : Cell
  ret : ℚ
  aum : Option Cell
  strategy : Cell
deriving DecidableEq, Repr

/-- The constant 100 of the percentage convention, in computable form. -/
def hundred : ℚ := mkRat 100 1

/-- Candidate-row test from line 33 of the source: contains a pipe, not the
header sentinel `"Fund Name"`, not the separator sentinel `"---"`. -/
def isCandidate (line : String) : Bool :=
  strIn "|" line && !(strIn "Fund Name" line) && !(strIn "---" line)

/-- Body of the `try` block of `extract_pdf_data` (lines 34-45): split on
`"|"`, strip each field; field 0 is the fund name, field 1 with every `'%'`
removed (`replace('%', '')`) is parsed as a float and divided by 100, field
2 is parsed as a float, field 3 is the strategy.  Any failure (too few
fields, unparseable number) yields `none`, the caught-exception case. -/
def parseLine (line : String) : Option FundRecord := do
  let parts := (splitOnChar '|' line.data).map pyStrip
  let p0 ← parts.get? 0
  let p1 ← parts.get? 1
  let p2 ← parts.get? 2
  let p3 ← parts.get? 3
  let rv ← pyFloat (String.mk (p1.filter (fun c => c ≠ '%')))
  let av ← pyFloat (String.mk p2)
  pure ⟨Cell.str (String.mk p0), qDiv rv hundred, some (Cell.num av), Cell.str (String.mk p3)⟩

/-- One iteration of the PDF loop on one line: skip non-candidates, append
a record on success, append the offending line (the content of the
`st.warning` report) on failure. -/
def pdfStep (acc : List FundRecord × List String) (line : String) :
    List FundRecord × List String :=
  if isCandidate line then
    match parseLine line with
    | some r => (acc.1 ++ [r], acc.2)
    | none => (acc.1, acc.2 ++ [line])
  else acc

/-- The PDF loop over an explicit list of lines. -/
def extractLines (ls : List String) : List FundRecord × List String :=
  ls.foldl pdfStep ([], [])

/-- `extract_pdf_data` (lines 27-48) on the already-extracted page text
(the PyPDF2 text-extraction collaborator is outside the model): split on
newlines and scan line by line; the first component is the parsed frame,
the second the lines reported by `st.warning`. -/
def extract_pdf_data (text : String) : List FundRecord × List String :=
  extractLines ((splitOnChar '\n' text.data).map String.mk)

/-- Raw spreadsheet table as produced by the sheet-reading collaborator:
an ordered header row and rows of cells positionally parallel to it. -/
structure RawTable where
  columns : List String
  rows : List (List Cell)
deriving DecidableEq, Repr

/-- Header normalization from line 53: strip, lower-case, spaces to
underscores. -/
def normalizeHeader (s : String) : String :=
  String.mk (((pyStrip s.data).map lowChar).map (fun c => if c = ' ' then '_' else c))

/-- Index of a column label (first occurrence; the tables in scope have
distinct normalized labels, as pandas column indexing assumes). -/
def colIndex (cols : List String) (name : String) : Option ℕ :=
  cols.findIdx? (· == name)

/-- Cell of a row under a column label. -/
def cellOf (cols : List String) (row : List Cell) (name : String) : Option Cell :=
  (colIndex cols name).bind (fun i => row.get? i)

/-- pandas `astype(float)` on one cell: numbers pass through, strings go
through `float(·)` and raise (here: `none`) when unparseable. -/
def cellFloat : Cell → Option ℚ
  | Cell.num q => some q
  | Cell.str s => pyFloat s

/-- One row of the projected frame (lines 64-69): the return cell is
coerced to float and divided by 100, the name and strategy cells are taken
raw, and the aum cell is taken raw when an aum column resolved (`df[aum_col]
if aum_col else None`). -/
def rowRecord (cols : List String) (fc rc sc : String) (ac? : Option String)
    (row : List Cell) : Option FundRecord := do
  let fcell ← cellOf cols row fc
  let rcell ← cellOf cols row rc
  let scell ← cellOf cols row sc
  let rv ← cellFloat rcell
  pure ⟨fcell, qDiv rv hundred, ac?.bind (cellOf cols row), scell⟩

/-- Column-at-once coercion: `df[ret_col].astype(float)` evaluates the
whole column, so a failure on any row raises for the whole file.  The
model walks the rows and fails the file on the first row whose record
cannot be formed. -/
def rowsToRecords (cols : List String) (fc rc sc : String) (ac? : Option String) :
    List (List Cell) → Except String (List FundRecord)
  | [] => Except.ok []
  | row :: rest =>
    match rowRecord cols fc rc sc ac? row with
    | none => Except.error "could not convert value to float"
    | some r =>
      match rowsToRecords cols fc rc sc ac? rest with
      | Except.ok rs => Except.ok (r :: rs)
      | Except.error e => Except.error e

/-- An `Option String` rendered the way Python's f-string renders the
matched column (or `None`) inside the `ValueError` message. -/
def showOpt : Option String → String
  | none => "None"
  | some s => s

/-- Decidable equality for `Except`, to evaluate concrete spreadsheet
outcomes. -/
instance {ε α : Type} [DecidableEq ε] [DecidableEq α] : DecidableEq (Except ε α) := fun x y =>
  match x, y with
  | Except.error a, Except.error b =>
    if h : a = b then isTrue (by rw [h]) else isFalse (fun hc => h (Except.error.inj hc))
  | Except.ok a, Except.ok b =>
    if h : a = b then isTrue (by rw [h]) else isFalse (fun hc => h (Except.ok.inj hc))
  | Except.error _, Except.ok _ => isFalse (fun hc => Except.noConfusion hc)
  | Except.ok _, Except.error _ => isFalse (fun hc => Except.noConfusion hc)

/-- `extract_excel_data` (lines 51-69) on an abstract table.  The four
alias lists are the source's; Python's `not all([...])` coincides with
`Option.isSome` here because `get_close_matches` can only return an element
of the header list that met the cutoff against a nonempty alias, never the
falsy empty string. -/
def extract_excel_data (t : RawTable) : Except String (List FundRecord) :=
  let cols := t.columns.map normalizeHeader
  let fund_col := match_column ["fund_name", "fund"] cols
  let ret_col := match_column ["weekly_return_(%)", "weekly_return", "return", "performance"] cols
  let aum_col := match_column ["aum", "aum_(m_usd)", "net_assets", "assets"] cols
  let strat_col := match_column ["strategy", "strat", "approach"] cols
  match fund_col, ret_col, strat_col with
  | some fc, some rc, some sc => rowsToRecords cols fc rc sc aum_col t.rows
  | _, _, _ =>
    Except.error ("Missing required columns: fund=" ++ showOpt fund_col ++
      ", return=" ++ showOpt ret_col ++ ", strategy=" ++ showOpt strat_col)

/-- An uploaded file, routed by the source on its filename suffix; the
payload is the already-decoded content (text extraction and sheet reading
are external collaborators). -/
inductive UpFile where
  | pdf (name : String) (text : String)
  | xlsx (name : String) (t : RawTable)
  | other (name : String)

/-- Records a file contributes to `all_data` (a file whose processing
raises contributes none; non-pdf, non-xlsx uploads are skipped). -/
def fileRecords : UpFile → List FundRecord
  | UpFile.pdf _ text => (extract_pdf_data text).1
  | UpFile.xlsx _ t =>
    match extract_excel_data t with
    | Except.ok rs => rs
    | Except.error _ => []
  | UpFile.other _ => []

/-- Per-line warnings (`st.warning`) a file produces. -/
def fileWarnings : UpFile → List String
  | UpFile.pdf _ text => (extract_pdf_data text).2
  | _ => []

/-- The `st.error` message a file produces when its processing raises
(lines 84-85); in the model only a spreadsheet schema or coercion failure
does. -/
def fileError? : UpFile → Option String
  | UpFile.xlsx name t =>
    match extract_excel_data t with
    | Except.ok _ => none
    | Except.error e => some ("Error processing " ++ name ++ ": " ++ e)
  | _ => none

/-- Outcome of the main loop plus `pd.concat` (lines 72-89). -/
structure PipeResult where
  records : List FundRecord
  warnings : List String
  fileErrors : List String
deriving DecidableEq, Repr

/-- The main loop: per-file outputs concatenated in upload order; the
combined frame is the flat record list. -/
def pipeline (fs : List UpFile) : PipeResult :=
  ⟨(fs.map fileRecords).flatten, (fs.map fileWarnings).flatten, fs.filterMap fileError?⟩

/-- Derived `net_return_usd` (line 90), per record: `return * aum`,
present exactly when a numeric aum is present. -/
def netReturnUsd (r : FundRecord) : Option ℚ :=
  match r.aum with
  | some (Cell.num q) => some (qMul r.ret q)
  | _ => none

/-- Numeric aum value of a record, when present; `dropna(subset=["aum"])`
keeps exactly the rows where this is `some` (every present aum cell in
scope is numeric). -/
def aumValue (r : FundRecord) : Option ℚ :=
  match r.aum with
  | some (Cell.num q) => some q
  | _ => none

/-- Add one observation to a grouping accumulator of `(key, sum, count)`
entries. -/
def bump : List (Cell × ℚ × ℕ) → Cell → ℚ → List (Cell × ℚ × ℕ)
  | [], k, v => [(k, v, 1)]
  | (k', s, n) :: t, k, v =>
    if k = k' then (k', qAdd s v, n + 1) :: t else (k', s, n) :: bump t k v

/-- Look a key up in a grouping accumulator. -/
def lookupG : List (Cell × ℚ × ℕ) → Cell → Option (ℚ × ℕ)
  | [], _ => none
  | (k', s, n) :: t, k => if k = k' then some (s, n) else lookupG t k

/-- pandas `groupby(key)[val]` folded to per-key sums and counts, skipping
rows whose value is absent (the `dropna` of the aum view). -/
def groupAccum (key : FundRecord → Cell) (val : FundRecord → Option ℚ) :
    List FundRecord → List (Cell × ℚ × ℕ)
  | [] => []
  | r :: rs =>
    match val r with
    | none => groupAccum key val rs
    | some v => bump (groupAccum key val rs) (key r) v

/-- `avg_returns` (line 98): mean `return` keyed by `fund_name`, as a
key-to-value view. -/
def avg_returns (ds : List FundRecord) (k : Cell) : Option ℚ :=
  (lookupG (groupAccum (fun r => r.fund_name) (fun r => some r.ret) ds) k).map
    (fun p => qDiv p.1 (mkRat p.2 1))

/-- `aum_by_strategy` (line 103): total aum keyed by `strategy`, over the
rows `dropna` keeps. -/
def aum_by_strategy (ds : List FundRecord) (k : Cell) : Option ℚ :=
  (lookupG (groupAccum (fun r => r.strategy) aumValue ds) k).map Prod.fst

/-- `avg_ret_by_strategy` (line 108): mean `return` keyed by `strategy`. -/
def avg_ret_by_strategy (ds : List FundRecord) (k : Cell) : Option ℚ :=
  (lookupG (groupAccum (fun r => r.strategy) (fun r => some r.ret) ds) k).map
    (fun p => qDiv p.1 (mkRat p.2 1))

/-- An alias word has an accepting fuzzy match among the available columns. -/
def accepts (word : String) (cols : List String) : Prop :=
  ∃ c ∈ cols, cutoff ≤ simScore c.data word.data

instance (word : String) (cols : List String) : Decidable (accepts word cols) := by
  unfold accepts
  infer_instance

theorem gcmFold_some_of_some (w : String) (cols : List String) :
    ∀ p : ℚ × String, (cols.foldl (gcmStep w) (some p)).isSome = true := by
  induction cols with
  | nil => intro p; rfl
  | cons c cs ih =>
    intro p
    obtain ⟨br, bx⟩ := p
    rw [List.foldl_cons]
    unfold gcmStep
    dsimp only
    split
    · exact ih (br, bx)
    · split
      · exact ih _
      · exact ih _

theorem gcmFold_none_iff (w : String) (cols : List String) :
    cols.foldl (gcmStep w) none = none ↔
      ∀ c ∈ cols, simScore c.data w.data < cutoff := by
  induction cols with
  | nil => simp
  | cons c cs ih =>
    rw [List.foldl_cons]
    by_cases h : simScore c.data w.data < cutoff
    · rw [show gcmStep w none c = none from by simp [gcmStep, h], ih]
      simp [List.forall_mem_cons, h]
    · rw [show gcmStep w none c = (some (simScore c.data w.data, c) : Option (ℚ × String))
        from by simp [gcmStep, h]]
      constructor
      · intro hnone
        have hs := gcmFold_some_of_some w cs (simScore c.data w.data, c)
        rw [hnone] at hs
        exact absurd hs (by simp)
      · intro hall
        exact absurd (hall c (List.mem_cons_self c cs)) h

theorem gcm1_none_iff (w : String) (cols : List String) :
    get_close_matches1 w cols = none ↔
      ∀ c ∈ cols, simScore c.data w.data < cutoff := by
  rw [get_close_matches1, Option.map_eq_none', gcmFold_none_iff]

theorem gcm1_isSome_iff (w : String) (cols : List String) :
    (get_close_matches1 w cols).isSome = true ↔ accepts w cols := by
  rw [Option.isSome_iff_ne_none, ne_eq, gcm1_none_iff]
  unfold accepts
  push_neg
  simp [not_lt]

theorem gcmFold_mem (w : String) (cols : List String) :
    ∀ (acc : Option (ℚ × String)) (p : ℚ × String),
      cols.foldl (gcmStep w) acc = some p →
      acc = some p ∨ (p.2 ∈ cols ∧ cutoff ≤ simScore p.2.data w.data) := by
  induction cols with
  | nil => intro acc p h; exact Or.inl h
  | cons c cs ih =>
    intro acc p h
    rw [List.foldl_cons] at h
    rcases ih (gcmStep w acc c) p h with hstep | hmem
    · by_cases hr : simScore c.data w.data < cutoff
      · simp only [gcmStep, if_pos hr] at hstep
        exact Or.inl hstep
      · cases acc with
        | none =>
          simp only [gcmStep, if_neg hr] at hstep
          obtain rfl : p = (simScore c.data w.data, c) := by
            injection hstep with h'; exact h'.symm
          exact Or.inr ⟨List.mem_cons_self c cs, not_lt.mp hr⟩
        | some q =>
          obtain ⟨br, bx⟩ := q
          simp only [gcmStep, if_neg hr] at hstep
          by_cases hb : br < simScore c.data w.data ∨ (br = simScore c.data w.data ∧ bx < c)
          · rw [if_pos hb] at hstep
            obtain rfl : p = (simScore c.data w.data, c) := by
              injection hstep with h'; exact h'.symm
            exact Or.inr ⟨List.mem_cons_self c cs, not_lt.mp hr⟩
          · rw [if_neg hb] at hstep
            exact Or.inl hstep
    · exact Or.inr ⟨List.mem_cons_of_mem c hmem.1, hmem.2⟩

theorem gcm1_mem (w : String) (cols : List String) (m : String) :
    get_close_matches1 w cols = some m →
      m ∈ cols ∧ cutoff ≤ simScore m.data w.data := by
  intro h
  rw [get_close_matches1] at h
  obtain ⟨p, hp, hpm⟩ := Option.map_eq_some'.mp h
  rcases gcmFold_mem w cols none p hp with habs | hmem
  · exact absurd habs (by simp)
  · subst hpm
    exact hmem

theorem match_column_none_iff (names cols : List String) :
    match_column names cols = none ↔ ∀ n ∈ names, ¬ accepts (lowerStr n) cols := by
  induction names with
  | nil => simp [match_column]
  | cons n rest ih =>
    rw [match_column]
    cases hg : get_close_matches1 (lowerStr n) cols with
    | some m =>
      have hacc : accepts (lowerStr n) cols := by
        rw [← gcm1_isSome_iff, hg]
        rfl
      simp [List.forall_mem_cons, hacc]
    | none =>
      have hnacc : ¬ accepts (lowerStr n) cols := by
        rw [← gcm1_isSome_iff, hg]
        simp
      simp [List.forall_mem_cons, hnacc, ih]

theorem match_column_skips (ns₁ : List String) (n : String) (ns₂ cols : List String)
    (h₁ : ∀ m ∈ ns₁, ¬ accepts (lowerStr m) cols) :
    match_column (ns₁ ++ n :: ns₂) cols = match_column (n :: ns₂) cols := by
  induction ns₁ with
  | nil => rfl
  | cons m ms ih =>
    rw [List.cons_append, match_column]
    have hm : get_close_matches1 (lowerStr m) cols = none := by
      have := h₁ m (List.mem_cons_self m ms)
      rw [← gcm1_isSome_iff] at this
      simpa [Option.isSome_iff_ne_none] using this
    simp only [hm]
    exact ih (fun x hx => h₁ x (List.mem_cons_of_mem m hx))

/-- C4: the fuzzy column matcher is greedy by alias priority: it returns
the accepted match of the first alias (in order) that has any match meeting
the threshold, and returns `none` exactly when no alias does; in
particular with aliases `["a", "b"]` and available column `"b"` it returns
`"b"`. -/
theorem matcher_alias_priority :
    (∀ names cols, match_column names cols = none ↔
        ∀ n ∈ names, ¬ accepts (lowerStr n) cols) ∧
    (∀ ns₁ n ns₂ cols, (∀ m ∈ ns₁, ¬ accepts (lowerStr m) cols) →
        accepts (lowerStr n) cols →
        match_column (ns₁ ++ n :: ns₂) cols = get_close_matches1 (lowerStr n) cols ∧
        (match_column (ns₁ ++ n :: ns₂) cols).isSome = true) ∧
    match_column ["a", "b"] ["b"] = some "b" := by
  refine ⟨match_column_none_iff, ?_, by decide⟩
  intro ns₁ n ns₂ cols h₁ hacc
  rw [match_column_skips ns₁ n ns₂ cols h₁, match_column]
  rw [← gcm1_isSome_iff] at hacc
  cases hg : get_close_matches1 (lowerStr n) cols with
  | none => rw [hg] at hacc; exact absurd hacc (by simp)
  | some m => simp [hg]

/-- Witness for C4: aliases `["a", "b"]` against the single available
column `"b"`; the first alias has no accepting match, the second matches
exactly. -/
theorem matcher_alias_priority_witness :
    match_column (["a"] ++ "b" :: []) ["b"] = get_close_matches1 (lowerStr "b") ["b"] ∧
    (match_column (["a"] ++ "b" :: []) ["b"]).isSome = true :=
  matcher_alias_priority.2.1 ["a"] "b" [] ["b"] (by decide) (by decide)

/-- C5: acceptance is exactly the fixed similarity threshold `0.6`: the
matcher returns a match precisely when some candidate's ratio reaches the
cutoff, any returned match itself reaches the cutoff, and concretely alias
`"return"` matches column `"retrn"` while alias `"return"` does not match
column `"xyz"`. -/
theorem matcher_threshold :
    cutoff = 0.6 ∧
    (∀ w cols, (get_close_matches1 w cols).isSome = true ↔
        ∃ c ∈ cols, cutoff ≤ simScore c.data w.data) ∧
    (∀ w cols m, get_close_matches1 w cols = some m →
        m ∈ cols ∧ cutoff ≤ simScore m.data w.data) ∧
    match_column ["return"] ["retrn"] = some "retrn" ∧
    match_column ["return"] ["xyz"] = none := by
  refine ⟨?_, fun w cols => (gcm1_isSome_iff w cols).trans Iff.rfl, gcm1_mem, by decide, by decide⟩
  rw [cutoff, Rat.mkRat_eq_div]
  norm_num

/-- Witness for C5: the accepted match `"retrn"` for alias `"return"` is
an available column whose similarity reaches the cutoff. -/
theorem matcher_threshold_witness :
    "retrn" ∈ ["retrn"] ∧ cutoff ≤ simScore "retrn".data "return".data :=
  matcher_threshold.2.2.1 "return" ["retrn"] "retrn" (by decide)

/-- The lines the PDF scanner iterates over. -/
def pdfLines (text : String) : List String :=
  (splitOnChar '\n' text.data).map String.mk

/-- Record produced by one line, if any: candidates that parse. -/
def lineRec? (l : String) : Option FundRecord :=
  if isCandidate l then parseLine l else none

/-- Whether one line is reported as a warning: candidates that fail to
parse. -/
def lineFails (l : String) : Bool :=
  isCandidate l && (parseLine l).isNone

theorem extractLines_acc (ls : List String) :
    ∀ acc : List FundRecord × List String,
      ls.foldl pdfStep acc = (acc.1 ++ (extractLines ls).1, acc.2 ++ (extractLines ls).2) := by
  induction ls with
  | nil => intro acc; simp [extractLines]
  | cons l ls ih =>
    intro acc
    rw [List.foldl_cons, ih (pdfStep acc l)]
    conv_rhs => rw [extractLines, List.foldl_cons, ih (pdfStep ([], []) l)]
    unfold pdfStep
    by_cases hc : isCandidate l
    · simp only [if_pos hc]
      cases parseLine l <;> simp
    · simp only [if_neg hc]
      simp

theorem extractLines_def (ls : List String) :
    ls.foldl pdfStep ([], []) = extractLines ls := rfl

theorem extractLines_closed (ls : List String) :
    extractLines ls = (ls.filterMap lineRec?, ls.filter lineFails) := by
  induction ls with
  | nil => rfl
  | cons l ls ih =>
    rw [extractLines, List.foldl_cons, extractLines_acc ls (pdfStep ([], []) l), ih]
    unfold pdfStep lineRec? lineFails
    by_cases hc : isCandidate l <;> cases hp : parseLine l <;>
      simp [List.filterMap_cons, List.filter_cons, hc, hp]

theorem extractLines_append (ls₁ ls₂ : List String) :
    extractLines (ls₁ ++ ls₂) =
      ((extractLines ls₁).1 ++ (extractLines ls₂).1,
       (extractLines ls₁).2 ++ (extractLines ls₂).2) := by
  rw [extractLines, List.foldl_append, extractLines_def, extractLines_acc ls₂ (extractLines ls₁)]

theorem pipeline_append (fs₁ fs₂ : List UpFile) :
    pipeline (fs₁ ++ fs₂) =
      ⟨(pipeline fs₁).records ++ (pipeline fs₂).records,
       (pipeline fs₁).warnings ++ (pipeline fs₂).warnings,
       (pipeline fs₁).fileErrors ++ (pipeline fs₂).fileErrors⟩ := by
  simp [pipeline, List.map_append, List.flatten_append, List.filterMap_append]

/-- C3: per-line isolation in the PDF parser.  Scanning distributes over
concatenation of line batches (so no line's failure affects any other
line); a failing candidate line contributes exactly itself to the warning
list and nothing to the records, and scanning continues; concretely, a
3-line batch whose second line has a non-numeric return field yields
exactly the records of lines 1 and 3 in original order plus one recorded
warning for line 2. -/
theorem pdf_line_isolation :
    (∀ ls₁ ls₂ : List String, extractLines (ls₁ ++ ls₂) =
      ((extractLines ls₁).1 ++ (extractLines ls₂).1,
       (extractLines ls₁).2 ++ (extractLines ls₂).2)) ∧
    (∀ l ls, isCandidate l = true → parseLine l = none →
      extractLines (l :: ls) = ((extractLines ls).1, l :: (extractLines ls).2)) ∧
    extractLines ["A | 1% | 10 | S", "B | abc | 20 | T", "C | 3% | 30 | U"] =
      ([⟨Cell.str "A", 0.01, some (Cell.num 10), Cell.str "S"⟩,
        ⟨Cell.str "C", 0.03, some (Cell.num 30), Cell.str "U"⟩],
       ["B | abc | 20 | T"]) := by
  refine ⟨extractLines_append, ?_, ?_⟩
  · intro l ls hc hp
    rw [extractLines, List.foldl_cons, extractLines_acc ls (pdfStep ([], []) l)]
    simp [pdfStep, hc, hp]
  · have h1 : (0.01 : ℚ) = mkRat 1 100 := by rw [Rat.mkRat_eq_div]; norm_num
    have h3 : (0.03 : ℚ) = mkRat 3 100 := by rw [Rat.mkRat_eq_div]; norm_num
    rw [h1, h3]
    decide

/-- Witness for C3: the failing middle line of the concrete batch is
recorded as a warning and scanning continues with the remaining line. -/
theorem pdf_line_isolation_witness :
    extractLines ["B | abc | 20 | T", "C | 3% | 30 | U"] =
      ((extractLines ["C | 3% | 30 | U"]).1,
       "B | abc | 20 | T" :: (extractLines ["C | 3% | 30 | U"]).2) :=
  pdf_line_isolation.2.1 "B | abc | 20 | T" ["C | 3% | 30 | U"] (by decide) (by decide)

/-- C8: a line is a candidate data row exactly when it contains a pipe and
neither the `"Fund Name"` header sentinel nor the `"---"` separator
sentinel; a line containing either sentinel produces neither a record nor
a warning. -/
theorem pdf_candidate_heuristic :
    (∀ line, isCandidate line =
      (strIn "|" line && !(strIn "Fund Name" line) && !(strIn "---" line))) ∧
    (∀ line, (strIn "Fund Name" line || strIn "---" line) = true →
      extractLines [line] = ([], [])) ∧
    extractLines ["Fund Name | Return | AUM | Strategy", "--- | --- | --- | ---"] = ([], []) := by
  refine ⟨fun line => rfl, ?_, by decide⟩
  intro line h
  have hc : isCandidate line = false := by
    rw [isCandidate]
    rcases Bool.or_eq_true_iff.mp h with h' | h' <;> simp [h']
  simp [extractLines, pdfStep, hc]

/-- Witness for C8: the header line of the concrete document is silently
skipped. -/
theorem pdf_candidate_heuristic_witness :
    extractLines ["Fund Name | Return | AUM | Strategy"] = ([], []) :=
  pdf_candidate_heuristic.2.1 "Fund Name | Return | AUM | Strategy" (by decide)

/-- Modelled from the spec sentence of C1 for the refinement comparison:
a single trailing `'%'` is stripped from the return field, where the
source's `replace('%', '')` removes every `'%'`. -/
def stripTrailingPercent (cs : List Char) : List Char :=
  match cs.reverse with
  | '%' :: t => t.reverse
  | _ => cs

/-- Spec-worded variant of `parseLine` for the refinement comparison of
C1: identical to the source's parse except that the return field has only
a trailing `'%'` stripped. -/
def parseLineSpec (line : String) : Option FundRecord := do
  let parts := (splitOnChar '|' line.data).map pyStrip
  let p0 ← parts.get? 0
  let p1 ← parts.get? 1
  let p2 ← parts.get? 2
  let p3 ← parts.get? 3
  let rv ← pyFloat (String.mk (stripTrailingPercent p1))
  let av ← pyFloat (String.mk p2)
  pure ⟨Cell.str (String.mk p0), qDiv rv hundred, some (Cell.num av), Cell.str (String.mk p3)⟩

theorem hundred_eq : hundred = 100 := by
  rw [hundred, Rat.mkRat_eq_div]
  norm_num

/-- Counterexample to C1 as stated: on the candidate line
`"F | 5%2 | 1 | S"` the source removes every percent sign and parses
`"52"`, yielding a record with return `0.52`, whereas the claimed
trailing-percent stripping leaves `"5%2"`, which does not parse as a
float — under the claim the line would yield no record at all. -/
theorem pdf_percent_counterexample :
    parseLine "F | 5%2 | 1 | S" =
      some ⟨Cell.str "F", 0.52, some (Cell.num 1), Cell.str "S"⟩ ∧
    parseLineSpec "F | 5%2 | 1 | S" = none ∧
    pyFloat (String.mk (stripTrailingPercent "5%2".data)) = none := by
  have h : (0.52 : ℚ) = mkRat 13 25 := by rw [Rat.mkRat_eq_div]; norm_num
  rw [h]
  refine ⟨by decide, by decide, by decide⟩

/-- C1 amended: for every candidate line, field 0 (stripped) becomes the
fund name, field 1 with every `'%'` character removed (not only a trailing
one) is parsed as a float and divided by 100 to give the return, field 2
is parsed as a float to give the aum, and field 3 becomes the strategy;
the concrete Alpha Fund round-trip is as the claim states it. -/
theorem pdf_row_mapping :
    parseLine "Alpha Fund | 5.25% | 120.5 | Long/Short" =
      some ⟨Cell.str "Alpha Fund", 0.0525, some (Cell.num 120.5), Cell.str "Long/Short"⟩ ∧
    (∀ (line : String) (p0 p1 p2 p3 : List Char) (rest : List (List Char)) (rv av : ℚ),
      (splitOnChar '|' line.data).map pyStrip = p0 :: p1 :: p2 :: p3 :: rest →
      pyFloat (String.mk (p1.filter (fun c => c ≠ '%'))) = some rv →
      pyFloat (String.mk p2) = some av →
      parseLine line =
        some ⟨Cell.str (String.mk p0), rv / 100, some (Cell.num av),
          Cell.str (String.mk p3)⟩) := by
  constructor
  · have h1 : (0.0525 : ℚ) = mkRat 21 400 := by rw [Rat.mkRat_eq_div]; norm_num
    have h2 : (120.5 : ℚ) = mkRat 241 2 := by rw [Rat.mkRat_eq_div]; norm_num
    rw [h1, h2]
    decide
  · intro line p0 p1 p2 p3 rest rv av hsplit hrv hav
    unfold parseLine
    rw [hsplit]
    simp only [List.get?, Option.bind_eq_bind, Option.some_bind]
    rw [hrv, hav]
    simp only [Option.some_bind, Option.pure_def, Option.some.injEq]
    rw [qDiv_eq, hundred_eq]

/-- Witness for C1 (amended): the Alpha Fund line instantiates the
positional mapping. -/
theorem pdf_row_mapping_witness :
    parseLine "Alpha Fund | 5.25% | 120.5 | Long/Short" =
      some ⟨Cell.str (String.mk "Alpha Fund".data), mkRat 21 4 / 100,
        some (Cell.num (mkRat 241 2)), Cell.str (String.mk "Long/Short".data)⟩ :=
  pdf_row_mapping.2 "Alpha Fund | 5.25% | 120.5 | Long/Short" "Alpha Fund".data
    "5.25%".data "120.5".data "Long/Short".data [] (mkRat 21 4) (mkRat 241 2)
    (by decide) (by decide) (by decide)

theorem parseLine_aum (l : String) (r : FundRecord) (h : parseLine l = some r) :
    ∃ q, r.aum = some (Cell.num q) := by
  simp only [parseLine, Option.bind_eq_bind, Option.bind_eq_some, Option.pure_def,
    Option.some.injEq] at h
  obtain ⟨p0, _, p1, _, p2, _, p3, _, rv, _, av, _, hr⟩ := h
  subst hr
  exact ⟨av, rfl⟩

/-- Counterexample to C2 as stated: a candidate PDF line whose first field
is empty produces a combined-dataset record whose fund name is the empty
string, with no warning and no file error reported. -/
theorem combined_nonempty_counterexample :
    (pipeline [UpFile.pdf "a.pdf" " | 5% | 1 | S"]).records =
      [⟨Cell.str "", 0.05, some (Cell.num 1), Cell.str "S"⟩] ∧
    (pipeline [UpFile.pdf "a.pdf" " | 5% | 1 | S"]).warnings = [] ∧
    (pipeline [UpFile.pdf "a.pdf" " | 5% | 1 | S"]).fileErrors = [] := by
  have h : (0.05 : ℚ) = mkRat 1 20 := by rw [Rat.mkRat_eq_div]; norm_num
  rw [h]
  refine ⟨by decide, by decide, by decide⟩

/-- C2 amended: every record in the combined dataset carries a numeric
(rational) return and a present numeric aum on the PDF path, and every
record comes from a successfully parsed row; rows that fail numeric
parsing are excluded and reported (PDF rows as per-line warnings,
spreadsheet files as per-file errors); but `fund_name` and `strategy` are
not guaranteed non-empty — an empty field parses to the empty string. -/
theorem combined_parse_invariant :
    (∀ text, extract_pdf_data text =
      ((pdfLines text).filterMap lineRec?, (pdfLines text).filter lineFails)) ∧
    (∀ text r, r ∈ (extract_pdf_data text).1 →
      ∃ line ∈ pdfLines text, isCandidate line = true ∧ parseLine line = some r ∧
        ∃ q, r.aum = some (Cell.num q)) ∧
    (∀ name t e, extract_excel_data t = Except.error e →
      fileRecords (UpFile.xlsx name t) = [] ∧
      fileError? (UpFile.xlsx name t) =
        some ("Error processing " ++ name ++ ": " ++ e)) := by
  have hpdf : ∀ text, extract_pdf_data text =
      ((pdfLines text).filterMap lineRec?, (pdfLines text).filter lineFails) := by
    intro text
    rw [extract_pdf_data, extractLines_closed]
    rfl
  refine ⟨hpdf, ?_, ?_⟩
  · intro text r hr
    rw [hpdf text] at hr
    obtain ⟨line, hline, hrec⟩ := List.mem_filterMap.mp hr
    unfold lineRec? at hrec
    by_cases hc : isCandidate line
    · rw [if_pos hc] at hrec
      exact ⟨line, hline, hc, hrec, parseLine_aum line r hrec⟩
    · rw [if_neg hc] at hrec
      exact absurd hrec (by simp)
  · intro name t e he
    constructor
    · simp [fileRecords, he]
    · simp [fileError?, he]

/-- Witness for C2 (amended): a table with no resolvable fund-name column
contributes zero records and one file error naming the unresolved field. -/
theorem combined_parse_invariant_witness :
    fileRecords (UpFile.xlsx "f.xlsx"
      ⟨["Return", "Strategy"], [[Cell.num 5, Cell.str "LS"]]⟩) = [] ∧
    fileError? (UpFile.xlsx "f.xlsx"
      ⟨["Return", "Strategy"], [[Cell.num 5, Cell.str "LS"]]⟩) =
      some ("Error processing " ++ "f.xlsx" ++ ": " ++
        "Missing required columns: fund=None, return=return, strategy=strategy") :=
  combined_parse_invariant.2.2 "f.xlsx"
    ⟨["Return", "Strategy"], [[Cell.num 5, Cell.str "LS"]]⟩
    "Missing required columns: fund=None, return=return, strategy=strategy"
    (by decide)

theorem rowRecord_aum (cols : List String) (fc rc sc : String) (ac? : Option String)
    (row : List Cell) (r : FundRecord) (h : rowRecord cols fc rc sc ac? row = some r) :
    r.aum = ac?.bind (cellOf cols row) := by
  simp only [rowRecord, Option.bind_eq_bind, Option.bind_eq_some, Option.pure_def,
    Option.some.injEq] at h
  obtain ⟨fcell, _, rcell, _, scell, _, rv, _, hr⟩ := h
  subst hr
  rfl

theorem rowRecord_none_of_badret (cols : List String) (fc rc sc : String)
    (ac? : Option String) (row : List Cell) (rcell : Cell)
    (hrc : cellOf cols row rc = some rcell) (hbad : cellFloat rcell = none) :
    rowRecord cols fc rc sc ac? row = none := by
  unfold rowRecord
  cases hf : cellOf cols row fc with
  | none => simp [hf]
  | some fcell =>
    cases hs : cellOf cols row sc with
    | none => simp [hf, hrc, hs]
    | some scell => simp [hf, hrc, hs, hbad]

theorem rowsToRecords_ok_of_all (cols : List String) (fc rc sc : String)
    (ac? : Option String) :
    ∀ rows : List (List Cell),
      (∀ row ∈ rows, (rowRecord cols fc rc sc ac? row).isSome = true) →
      ∃ rs, rowsToRecords cols fc rc sc ac? rows = Except.ok rs ∧
        rs.length = rows.length ∧
        ∀ r ∈ rs, ∃ row ∈ rows, rowRecord cols fc rc sc ac? row = some r := by
  intro rows
  induction rows with
  | nil => exact fun _ => ⟨[], rfl, rfl, by simp⟩
  | cons row rest ih =>
    intro hall
    obtain ⟨r, hr⟩ := Option.isSome_iff_exists.mp (hall row (List.mem_cons_self row rest))
    obtain ⟨rs, hrs, hlen, hmem⟩ := ih (fun x hx => hall x (List.mem_cons_of_mem row hx))
    refine ⟨r :: rs, ?_, by simp [hlen], ?_⟩
    · rw [rowsToRecords]
      simp [hr, hrs]
    · intro x hx
      rcases List.mem_cons.mp hx with rfl | hx'
      · exact ⟨row, List.mem_cons_self row rest, hr⟩
      · obtain ⟨row', hrow', hx''⟩ := hmem x hx'
        exact ⟨row', List.mem_cons_of_mem row hrow', hx''⟩

theorem rowsToRecords_error_of_bad (cols : List String) (fc rc sc : String)
    (ac? : Option String) :
    ∀ rows : List (List Cell),
      (∃ row ∈ rows, rowRecord cols fc rc sc ac? row = none) →
      rowsToRecords cols fc rc sc ac? rows =
        Except.error "could not convert value to float" := by
  intro rows
  induction rows with
  | nil => rintro ⟨row, hmem, _⟩; simp at hmem
  | cons row rest ih =>
    rintro ⟨row', hmem, hbad⟩
    rcases List.mem_cons.mp hmem with rfl | h'
    · rw [rowsToRecords]
      simp [hbad]
    · cases hr : rowRecord cols fc rc sc ac? row with
      | none => rw [rowsToRecords]; simp [hr]
      | some r =>
        rw [rowsToRecords]
        simp [hr, ih ⟨row', h', hbad⟩]

/-- C6: a table on which the fund-name, return, or strategy column fails
to resolve fails as a whole with the `Missing required columns` error
naming each field's resolution; the file then contributes zero records to
the combined dataset and one file error, while every other file's
contribution is unchanged; the concrete table with columns
`["Return", "Strategy"]` fails naming `fund=None`. -/
theorem excel_schema_error :
    (∀ t : RawTable,
      (match_column ["fund_name", "fund"] (t.columns.map normalizeHeader) = none ∨
       match_column ["weekly_return_(%)", "weekly_return", "return", "performance"]
         (t.columns.map normalizeHeader) = none ∨
       match_column ["strategy", "strat", "approach"] (t.columns.map normalizeHeader) = none) →
      extract_excel_data t = Except.error
        ("Missing required columns: fund=" ++
          showOpt (match_column ["fund_name", "fund"] (t.columns.map normalizeHeader)) ++
          ", return=" ++ showOpt (match_column
            ["weekly_return_(%)", "weekly_return", "return", "performance"]
            (t.columns.map normalizeHeader)) ++
          ", strategy=" ++ showOpt (match_column ["strategy", "strat", "approach"]
            (t.columns.map normalizeHeader)))) ∧
    (∀ name t e fs₁ fs₂, extract_excel_data t = Except.error e →
      (pipeline (fs₁ ++ UpFile.xlsx name t :: fs₂)).records =
        (pipeline (fs₁ ++ fs₂)).records ∧
      (pipeline (fs₁ ++ UpFile.xlsx name t :: fs₂)).fileErrors =
        (pipeline fs₁).fileErrors ++
          ("Error processing " ++ name ++ ": " ++ e) :: (pipeline fs₂).fileErrors) ∧
    extract_excel_data ⟨["Return", "Strategy"], [[Cell.num 5, Cell.str "LS"]]⟩ =
      Except.error "Missing required columns: fund=None, return=return, strategy=strategy" := by
  refine ⟨?_, ?_, by decide⟩
  · intro t h
    rcases hf : match_column ["fund_name", "fund"] (t.columns.map normalizeHeader)
      with _ | fc <;>
    rcases hr : match_column ["weekly_return_(%)", "weekly_return", "return", "performance"]
      (t.columns.map normalizeHeader) with _ | rc <;>
    rcases hs : match_column ["strategy", "strat", "approach"]
      (t.columns.map normalizeHeader) with _ | sc <;>
      simp_all [extract_excel_data]
  · intro name t e fs₁ fs₂ he
    have hrec : fileRecords (UpFile.xlsx name t) = [] := by simp [fileRecords, he]
    have herr : fileError? (UpFile.xlsx name t) =
        some ("Error processing " ++ name ++ ": " ++ e) := by simp [fileError?, he]
    constructor
    · simp [pipeline, List.map_append, List.flatten_append, hrec]
    · simp [pipeline, List.filterMap_append, herr]

/-- Witness for C6: the schema failure and its pipeline effect at the
concrete fund-less table, placed between two empty file batches. -/
theorem excel_schema_error_witness :
    (pipeline ([] ++ UpFile.xlsx "f.xlsx"
        ⟨["Return", "Strategy"], [[Cell.num 5, Cell.str "LS"]]⟩ :: [])).records =
      (pipeline ([] ++ [])).records ∧
    (pipeline ([] ++ UpFile.xlsx "f.xlsx"
        ⟨["Return", "Strategy"], [[Cell.num 5, Cell.str "LS"]]⟩ :: [])).fileErrors =
      (pipeline []).fileErrors ++
        ("Error processing " ++ "f.xlsx" ++ ": " ++
          "Missing required columns: fund=None, return=return, strategy=strategy") ::
          (pipeline []).fileErrors :=
  excel_schema_error.2.1 "f.xlsx"
    ⟨["Return", "Strategy"], [[Cell.num 5, Cell.str "LS"]]⟩
    "Missing required columns: fund=None, return=return, strategy=strategy" [] []
    (by decide)

/-- C7: a table whose fund-name, return, and strategy columns resolve but
whose aum column does not still yields one record per row, each with `aum`
absent and `net_return_usd` correspondingly absent. -/
theorem excel_aum_optional :
    ∀ (t : RawTable) (fc rc sc : String),
      match_column ["fund_name", "fund"] (t.columns.map normalizeHeader) = some fc →
      match_column ["weekly_return_(%)", "weekly_return", "return", "performance"]
        (t.columns.map normalizeHeader) = some rc →
      match_column ["strategy", "strat", "approach"]
        (t.columns.map normalizeHeader) = some sc →
      match_column ["aum", "aum_(m_usd)", "net_assets", "assets"]
        (t.columns.map normalizeHeader) = none →
      (∀ row ∈ t.rows,
        (rowRecord (t.columns.map normalizeHeader) fc rc sc none row).isSome = true) →
      ∃ rs, extract_excel_data t = Except.ok rs ∧ rs.length = t.rows.length ∧
        ∀ r ∈ rs, r.aum = none ∧ netReturnUsd r = none := by
  intro t fc rc sc hf hr hs ha hall
  obtain ⟨rs, hrs, hlen, hmem⟩ :=
    rowsToRecords_ok_of_all (t.columns.map normalizeHeader) fc rc sc none t.rows hall
  refine ⟨rs, ?_, hlen, ?_⟩
  · simp only [extract_excel_data, hf, hr, hs, ha]
    exact hrs
  · intro r hrmem
    obtain ⟨row, _, hrow⟩ := hmem r hrmem
    have haum : r.aum = none := by
      simpa using rowRecord_aum (t.columns.map normalizeHeader) fc rc sc none row r hrow
    exact ⟨haum, by simp [netReturnUsd, haum]⟩

/-- Witness for C7: a one-row table with columns
`["Fund", "Return", "Strategy"]` and no aum-like column. -/
theorem excel_aum_optional_witness :
    ∃ rs, extract_excel_data
        ⟨["Fund", "Return", "Strategy"], [[Cell.str "A", Cell.num 5, Cell.str "LS"]]⟩ =
        Except.ok rs ∧
      rs.length = (⟨["Fund", "Return", "Strategy"],
        [[Cell.str "A", Cell.num 5, Cell.str "LS"]]⟩ : RawTable).rows.length ∧
      ∀ r ∈ rs, r.aum = none ∧ netReturnUsd r = none :=
  excel_aum_optional
    ⟨["Fund", "Return", "Strategy"], [[Cell.str "A", Cell.num 5, Cell.str "LS"]]⟩
    "fund" "return" "strategy" (by decide) (by decide) (by decide) (by decide) (by decide)

/-- C10: return coercion in the spreadsheet path is column-at-once: one
non-numeric value in the resolved return column of any row fails the whole
file with the coercion error, so the file contributes zero records and one
file error; the PDF path, on the same defect, loses only the offending
line. -/
theorem excel_column_failure :
    (∀ (t : RawTable) (fc rc sc : String) (ac? : Option String),
      match_column ["fund_name", "fund"] (t.columns.map normalizeHeader) = some fc →
      match_column ["weekly_return_(%)", "weekly_return", "return", "performance"]
        (t.columns.map normalizeHeader) = some rc →
      match_column ["strategy", "strat", "approach"]
        (t.columns.map normalizeHeader) = some sc →
      match_column ["aum", "aum_(m_usd)", "net_assets", "assets"]
        (t.columns.map normalizeHeader) = ac? →
      (∃ row ∈ t.rows, ∃ rcell,
        cellOf (t.columns.map normalizeHeader) row rc = some rcell ∧
        cellFloat rcell = none) →
      extract_excel_data t = Except.error "could not convert value to float" ∧
      ∀ name, fileRecords (UpFile.xlsx name t) = [] ∧
        fileError? (UpFile.xlsx name t) = some ("Error processing " ++ name ++ ": " ++
          "could not convert value to float")) ∧
    extract_excel_data ⟨["Fund", "Return", "Strategy"],
      [[Cell.str "A", Cell.num 5, Cell.str "LS"],
       [Cell.str "B", Cell.str "abc", Cell.str "EQ"]]⟩ =
      Except.error "could not convert value to float" ∧
    extractLines ["A | 5% | 1 | S", "B | abc | 1 | S"] =
      ([⟨Cell.str "A", 0.05, some (Cell.num 1), Cell.str "S"⟩], ["B | abc | 1 | S"]) := by
  refine ⟨?_, by decide, ?_⟩
  · intro t fc rc sc ac? hf hr hs ha hbad
    obtain ⟨row, hrow, rcell, hrc, hcf⟩ := hbad
    have herr : extract_excel_data t = Except.error "could not convert value to float" := by
      simp only [extract_excel_data, hf, hr, hs, ha]
      exact rowsToRecords_error_of_bad (t.columns.map normalizeHeader) fc rc sc ac? t.rows
        ⟨row, hrow, rowRecord_none_of_badret (t.columns.map normalizeHeader) fc rc sc ac?
          row rcell hrc hcf⟩
    refine ⟨herr, fun name => ⟨by simp [fileRecords, herr], by simp [fileError?, herr]⟩⟩
  · have h : (0.05 : ℚ) = mkRat 1 20 := by rw [Rat.mkRat_eq_div]; norm_num
    rw [h]
    decide

/-- Witness for C10: the two-row table whose second return cell is the
string `"abc"` fails whole-file while the analogous two-line PDF batch
loses only its second line. -/
theorem excel_column_failure_witness :
    extract_excel_data ⟨["Fund", "Return", "Strategy"],
      [[Cell.str "A", Cell.num 5, Cell.str "LS"],
       [Cell.str "B", Cell.str "abc", Cell.str "EQ"]]⟩ =
      Except.error "could not convert value to float" ∧
    ∀ name, fileRecords (UpFile.xlsx name ⟨["Fund", "Return", "Strategy"],
        [[Cell.str "A", Cell.num 5, Cell.str "LS"],
         [Cell.str "B", Cell.str "abc", Cell.str "EQ"]]⟩) = [] ∧
      fileError? (UpFile.xlsx name ⟨["Fund", "Return", "Strategy"],
        [[Cell.str "A", Cell.num 5, Cell.str "LS"],
         [Cell.str "B", Cell.str "abc", Cell.str "EQ"]]⟩) =
        some ("Error processing " ++ name ++ ": " ++ "could not convert value to float") :=
  excel_column_failure.1
    ⟨["Fund", "Return", "Strategy"],
      [[Cell.str "A", Cell.num 5, Cell.str "LS"],
       [Cell.str "B", Cell.str "abc", Cell.str "EQ"]]⟩
    "fund" "return" "strategy" none
    (by decide) (by decide) (by decide) (by decide)
    ⟨[Cell.str "B", Cell.str "abc", Cell.str "EQ"], by decide,
      Cell.str "abc", by decide, by decide⟩

theorem lookupG_bump (acc : List (Cell × ℚ × ℕ)) (k : Cell) (v : ℚ) (k' : Cell) :
    lookupG (bump acc k v) k' =
      if k' = k then
        match lookupG acc k with
        | none => some (v, 1)
        | some (s, n) => some (qAdd s v, n + 1)
      else lookupG acc k' := by
  induction acc with
  | nil =>
    by_cases h : k' = k
    · subst h; simp [bump, lookupG]
    · simp [bump, lookupG, h, fun hc : k' = k => h hc]
  | cons e t ih =>
    obtain ⟨k₀, s₀, n₀⟩ := e
    by_cases hk : k = k₀
    · subst hk
      by_cases h' : k' = k
      · subst h'; simp [bump, lookupG]
      · simp [bump, lookupG, h']
    · by_cases h' : k' = k₀
      · subst h'
        have hne : ¬ k' = k := fun hc => hk hc.symm
        simp [bump, lookupG, hk, hne]
      · simp [bump, lookupG, hk, h', ih]

/-- The values a grouped view aggregates for key `k`: each record with
that key contributes its (present) value, in record order. -/
def groupVals (key : FundRecord → Cell) (val : FundRecord → Option ℚ)
    (ds : List FundRecord) (k : Cell) : List ℚ :=
  ds.filterMap (fun r => if key r = k then val r else none)

theorem groupAccum_lookup (key : FundRecord → Cell) (val : FundRecord → Option ℚ)
    (ds : List FundRecord) (k : Cell) :
    lookupG (groupAccum key val ds) k =
      if groupVals key val ds k = [] then none
      else some ((groupVals key val ds k).sum, (groupVals key val ds k).length) := by
  induction ds with
  | nil => simp [groupAccum, lookupG, groupVals]
  | cons r rs ih =>
    cases hv : val r with
    | none =>
      have hacc : groupAccum key val (r :: rs) = groupAccum key val rs := by
        simp [groupAccum, hv]
      have hg : groupVals key val (r :: rs) k = groupVals key val rs k := by
        unfold groupVals
        rw [List.filterMap_cons]
        by_cases hk : key r = k <;> simp [hk, hv]
      rw [hacc, hg]
      exact ih
    | some v =>
      have hacc : groupAccum key val (r :: rs) =
          bump (groupAccum key val rs) (key r) v := by
        simp [groupAccum, hv]
      rw [hacc, lookupG_bump]
      by_cases hk : key r = k
      · have hg : groupVals key val (r :: rs) k = v :: groupVals key val rs k := by
          unfold groupVals
          rw [List.filterMap_cons]
          simp [hk, hv]
        rw [if_pos hk.symm, hk, ih, hg]
        by_cases hrs : groupVals key val rs k = []
        · simp [hrs]
        · simp [hrs, qAdd_eq, add_comm]
      · have hg : groupVals key val (r :: rs) k = groupVals key val rs k := by
          unfold groupVals
          rw [List.filterMap_cons]
          simp [hk]
        rw [if_neg (fun hc => hk hc.symm), ih, hg]

theorem groupVals_filter (key : FundRecord → Cell) (val : FundRecord → Option ℚ)
    (ds : List FundRecord) (k : Cell) :
    groupVals key val ds k = (ds.filter (fun r => decide (key r = k))).filterMap val := by
  induction ds with
  | nil => rfl
  | cons r rs ih =>
    unfold groupVals at ih ⊢
    rw [List.filterMap_cons, List.filter_cons]
    by_cases hk : key r = k
    · cases hval : val r <;> simp [hk, hval, ih]
    · simp [hk, ih]

theorem groupVals_filter_map (key : FundRecord → Cell) (f : FundRecord → ℚ)
    (ds : List FundRecord) (k : Cell) :
    groupVals key (fun r => some (f r)) ds k =
      (ds.filter (fun r => decide (key r = k))).map f := by
  rw [groupVals_filter]
  induction (ds.filter (fun r => decide (key r = k))) with
  | nil => rfl
  | cons r rs ih => rw [List.filterMap_cons, List.map_cons, ih]

theorem mkRat_natCast (n : ℕ) : (mkRat (n : ℤ) 1 : ℚ) = (n : ℚ) := by
  rw [Rat.mkRat_one]
  push_cast
  rfl

/-- C9: the aggregator's grouped views satisfy their defining equations:
mean return keyed by fund name is the arithmetic mean over all records
with that fund name (duplicates included, not deduplicated); aum keyed by
strategy is the sum over only the records whose aum is present; mean
return keyed by strategy likewise.  Concretely, two F1 records with
returns 0.1 and 0.3 average to exactly 0.2; records with returns 0.1,
0.1, 0.4 average to 0.2 (not the deduplicated 0.25); and aum 2 and 3 with
one aum-less record in between sum to 5. -/
theorem aggregation_grouping :
    (∀ ds k, avg_returns ds k =
      (let g := (ds.filter (fun r => decide (r.fund_name = k))).map FundRecord.ret;
       if g = [] then none else some (g.sum / (g.length : ℚ)))) ∧
    (∀ ds k, aum_by_strategy ds k =
      (let g := (ds.filter (fun r => decide (r.strategy = k))).filterMap aumValue;
       if g = [] then none else some g.sum)) ∧
    (∀ ds k, avg_ret_by_strategy ds k =
      (let g := (ds.filter (fun r => decide (r.strategy = k))).map FundRecord.ret;
       if g = [] then none else some (g.sum / (g.length : ℚ)))) ∧
    avg_returns [⟨Cell.str "F1", 0.1, none, Cell.str "S1"⟩,
                 ⟨Cell.str "F1", 0.3, none, Cell.str "S1"⟩] (Cell.str "F1") = some 0.2 ∧
    avg_returns [⟨Cell.str "F1", 0.1, none, Cell.str "S1"⟩,
                 ⟨Cell.str "F1", 0.1, none, Cell.str "S1"⟩,
                 ⟨Cell.str "F1", 0.4, none, Cell.str "S1"⟩] (Cell.str "F1") = some 0.2 ∧
    aum_by_strategy [⟨Cell.str "F1", 0.1, some (Cell.num 2), Cell.str "S1"⟩,
                     ⟨Cell.str "F2", 0.2, none, Cell.str "S1"⟩,
                     ⟨Cell.str "F3", 0.3, some (Cell.num 3), Cell.str "S1"⟩]
      (Cell.str "S1") = some 5 := by
  have hmean : ∀ (key : FundRecord → Cell) (ds : List FundRecord) (k : Cell),
      (lookupG (groupAccum key (fun r => some r.ret) ds) k).map
        (fun p => qDiv p.1 (mkRat p.2 1)) =
      (let g := (ds.filter (fun r => decide (key r = k))).map FundRecord.ret;
       if g = [] then none else some (g.sum / (g.length : ℚ))) := by
    intro key ds k
    rw [groupAccum_lookup, groupVals_filter_map]
    by_cases hg : (ds.filter (fun r => decide (key r = k))).map FundRecord.ret = []
    · simp [hg]
    · simp only [hg, if_neg, Option.map_some']
      simp [qDiv_eq, mkRat_natCast, hg]
  have h01 : (0.1 : ℚ) = mkRat 1 10 := by rw [Rat.mkRat_eq_div]; norm_num
  have h02 : (0.2 : ℚ) = mkRat 1 5 := by rw [Rat.mkRat_eq_div]; norm_num
  have h03 : (0.3 : ℚ) = mkRat 3 10 := by rw [Rat.mkRat_eq_div]; norm_num
  have h04 : (0.4 : ℚ) = mkRat 2 5 := by rw [Rat.mkRat_eq_div]; norm_num
  refine ⟨fun ds k => hmean (fun r => r.fund_name) ds k, ?_,
    fun ds k => hmean (fun r => r.strategy) ds k, ?_, ?_, ?_⟩
  · intro ds k
    rw [aum_by_strategy, groupAccum_lookup, groupVals_filter]
    by_cases hg : (ds.filter (fun r => decide (r.strategy = k))).filterMap aumValue = []
    · simp [hg]
    · simp [hg]
  · rw [h01, h02, h03]
    decide
  · rw [h01, h02, h04]
    decide
  · rw [h01, h02, h03]
    decide

end DataExtractor
